import Mathlib

/-!
# Verification of the MJHMC Distribution abstraction

Shallow embedding of `mjhmc/misc/distributions.py` (and the parts of
`mjhmc/misc/tf_distributions.py` the claims touch).  Python objects are
modelled by explicit state records; mutation is state passing; a raised
exception is an `Except.error` carrying the fault kind.  `numpy` batches of
shape `[ndims, nbatch]` are lists of rows over `ℚ`.  Python's builtin `hash`
of a tuple of parameters is modelled injectively by the flattened tuple
itself (hash collisions of the host language are abstracted away).  Calls to
`np.random.randn` are modelled by a deterministic stream read off a counter
held in the object state: each call consumes `n*k` fresh positions of the
stream, so distinct calls return distinct draws, as independent Gaussian
draws do almost surely.
-/

/-- Kinds of Python exceptions raised by the embedded code:
`NotImplementedError` from unimplemented contract methods,
`AttributeError` from reading a never-assigned attribute, and
`RecursionError` for the unbounded self-call of `cached_init_X` when the
freshly stored cache entry is not found again. -/
inductive Fault where
  | notImplemented
  | attributeError
  | recursionError
deriving DecidableEq, Repr

/-- An atomic Python value appearing in a `__hash__` tuple. -/
inductive PyAtom where
  | int (z : ℤ)
  | str (s : String)
  | rat (q : ℚ)
deriving DecidableEq, Repr

/-- A Python `__hash__` result, modelled injectively as the flattened tuple
of hashed components. -/
abbrev PyHash := List PyAtom

/-- A numpy array of shape `[ndims, k]`: a list of `ndims` rows, each of
length `k`. -/
abbrev Mat := List (List ℚ)

/-- `X.shape[1]` of a (nonempty) two-dimensional numpy array: the length of
the first row. -/
def Mat.cols : Mat → ℕ
  | [] => 0
  | r :: _ => r.length

/-- The numpy column slice `A[:, :m]`. -/
def Mat.takeCols (m : ℕ) (A : Mat) : Mat := A.map (List.take m)

/-- The array has shape `[n, k]`. -/
def Mat.WellFormed (A : Mat) (n k : ℕ) : Prop :=
  A.length = n ∧ ∀ r ∈ A, r.length = k

instance Mat.decWellFormed (A : Mat) (n k : ℕ) : Decidable (A.WellFormed n k) :=
  inferInstanceAs (Decidable (A.length = n ∧ ∀ r ∈ A, r.length = k))

/-- Entry `(i, j)` of a batch, with numpy's row-major layout. -/
def Mat.entry (A : Mat) (i j : ℕ) : ℚ := (A.getD i []).getD j 0

/-- Elementwise sum of two batches of equal shape. -/
def Mat.add (A B : Mat) : Mat := A.zipWith (List.zipWith (· + ·)) B

/-- Elementwise difference of two batches of equal shape. -/
def Mat.sub (A B : Mat) : Mat := A.zipWith (List.zipWith (· - ·)) B

/-- The list of columns of a batch (numpy's transpose, used where the code
iterates per particle). -/
def Mat.colsOf (X : Mat) : List (List ℚ) :=
  (List.range X.cols).map (fun j => X.map (fun r => r.getD j 0))

/-- Position `m` of the deterministic stream standing in for the global
`np.random` Gaussian stream. -/
def noise (m : ℕ) : ℚ := (m : ℚ)

/-- `np.random.randn(n, k)` drawn starting at stream position `seed`:
an `[n, k]` batch of fresh stream values. -/
def randn (seed n k : ℕ) : Mat :=
  (List.range n).map (fun i => (List.range k).map (fun j => noise (seed + i * k + j)))

/-- The mutable attributes of a `Distribution` instance
(`Distribution.__init__`, distributions.py lines 20-55): dimensions, batch
size, the tri-state jump flag (`None` at construction), the two evaluation
counters, the burn-in marker, the current particle batch `Xinit`, and the
position of the random stream. -/
structure DistState where
  ndims : ℕ
  nbatch : ℕ
  mjhmc : Option Bool
  E_count : ℕ
  dEdX_count : ℕ
  generation_instance : Bool
  Xinit : Mat
  rng : ℕ
deriving DecidableEq, Repr

/-- Python truthiness of the tri-state `mjhmc` flag: `if self.mjhmc:` takes
the first branch only when the flag is literally `True`; both `None` and
`False` are falsy. -/
def truthy : Option Bool → Bool
  | some true => true
  | _ => false

/-- One pickled initialization file: the 4-tuple
`(mjhmc_endpt, emc_var, true_var, control_endpt)` unpacked at
distributions.py line 113. -/
structure CacheEntry where
  mjhmc_endpt : Mat
  emc_var : ℚ
  true_var : ℚ
  control_endpt : Mat
deriving DecidableEq, Repr

/-- A file of the `initializations` directory, named
`"{type_name}_{hash}.pickle"`: the key is the pair of the class name and
the distribution hash. -/
structure CacheFile where
  dname : String
  dhash : PyHash
  entry : CacheEntry
deriving DecidableEq, Repr

/-- The `initializations` directory. -/
abbrev Cache := List CacheFile

/-- `file_name in os.listdir(file_prefix)` followed by unpickling: find the
entry stored under the key, `none` on a miss. -/
def Cache.lookup (c : Cache) (nm : String) (h : PyHash) : Option CacheEntry :=
  (c.find? (fun f => f.dname = nm ∧ f.dhash = h)).map (·.entry)

/-- Write the pickle file for the key (the burn-in driver's
`cache_initialization` stores a fresh entry). -/
def Cache.store (c : Cache) (nm : String) (h : PyHash) (e : CacheEntry) : Cache :=
  ⟨nm, h, e⟩ :: c

/-- The overridable surface of a concrete `Distribution` subclass.  The base
class defaults raise `NotImplementedError`; a subclass that omits a method
keeps the corresponding error value (`E_val`, `dEdX_val`, `__hash__`,
`gen_init_X` at distributions.py lines 62-66, 73-77, 79-89, 149-156).
`hashOf` reads the live attributes (`LambdaDistribution.__hash__` reads
`self.nbatch`).  `init_X_override` is `some` only for subclasses that
override `init_X` itself (`MultimodalGaussian`). -/
structure DistConfig where
  dname : String
  e_val : Mat → Except Fault Mat
  dEdX_val : Mat → Except Fault Mat
  hashOf : DistState → Except Fault PyHash
  gen_init_X : Option (DistState → DistState)
  init_X_override : Option (DistState → DistState)

namespace Distribution

/-- `Distribution.E` (lines 58-60): increments `E_count` by `X.shape[1]`
and then delegates to `E_val`.  The counter update happens before the
delegate runs, so it survives a raising delegate. -/
def E (cfg : DistConfig) (s : DistState) (X : Mat) : DistState × Except Fault Mat :=
  ({ s with E_count := s.E_count + X.cols }, cfg.e_val X)

/-- `Distribution.dEdX` (lines 69-71): increments `dEdX_count` by
`X.shape[1]` and then delegates to `dEdX_val`. -/
def dEdX (cfg : DistConfig) (s : DistState) (X : Mat) : DistState × Except Fault Mat :=
  ({ s with dEdX_count := s.dEdX_count + X.cols }, cfg.dEdX_val X)

/-- Lines 114-117: on a cache hit the loaded batch for the regime selected
by the truthiness of `self.mjhmc` is sliced to `self.nbatch` columns and
assigned to `self.Xinit`. -/
def retrieveFromEntry (s : DistState) (e : CacheEntry) : DistState :=
  if truthy s.mjhmc then { s with Xinit := e.mjhmc_endpt.takeCols s.nbatch }
  else { s with Xinit := e.control_endpt.takeCols s.nbatch }

/-- Modelled from the spec: `MAX_N_PARTICLES` lives in
`mjhmc.misc.gen_mj_init`, which is not part of the sources; the spec fixes
it only as "a maximum particle count (larger than any expected experimental
`nbatch`)". -/
def MAX_N_PARTICLES : ℕ := 1000

/-- Modelled from the spec: `cache_initialization` of
`mjhmc.misc.gen_mj_init` is not part of the sources.  Per spec section 4.4
it runs the jump and the control sampler from the biased seed and records
the terminal batch of each run together with variance estimates; the
sampler dynamics themselves are declared out of the spec's scope, so the
terminal batches are modelled as the (shape-correct) seeded batch. -/
def burnInEntry (s : DistState) : CacheEntry :=
  { mjhmc_endpt := s.Xinit, emc_var := 0, true_var := 0, control_endpt := s.Xinit }

/-- `Distribution.cached_init_X` (lines 100-145).  `hash(self)` is computed
first, before the directory listing is consulted, so an unimplemented or
faulting `__hash__` raises here — during construction.  On a hit the
selected regime batch is sliced.  On a miss the object is mutated into a
burn-in driver (`nbatch := MAX_N_PARTICLES`, `generation_instance := True`),
seeded by `gen_init_X` — falling back to a plain `np.random.randn` draw when
that raises `NotImplementedError` —, the entry produced by the burn-in is
stored under the hash of the driver state, the object is restored, and the
code calls itself again; that tail call is unfolded one level here, and a
second consecutive miss (possible when the hash depends on `nbatch`, as
`LambdaDistribution`'s does) is the unbounded recursion of the source,
modelled as `RecursionError`. -/
def cached_init_X (cfg : DistConfig) (cache : Cache) (s : DistState) :
    Except Fault (DistState × Cache) := do
  let h ← cfg.hashOf s
  match cache.lookup cfg.dname h with
  | some entry => .ok (retrieveFromEntry s entry, cache)
  | none =>
    let s1 := { s with nbatch := MAX_N_PARTICLES, generation_instance := true }
    let s2 := match cfg.gen_init_X with
      | some g => g s1
      | none =>
        { s1 with Xinit := randn s1.rng s1.ndims s1.nbatch,
                  rng := s1.rng + s1.ndims * s1.nbatch }
    let h2 ← cfg.hashOf s2
    let cache' := cache.store cfg.dname h2 (burnInEntry s2)
    let s3 := { s2 with nbatch := s.nbatch, generation_instance := false }
    let h3 ← cfg.hashOf s3
    match cache'.lookup cfg.dname h3 with
    | some entry => .ok (retrieveFromEntry s3 entry, cache')
    | none => .error .recursionError

/-- `Distribution.init_X` (lines 92-98): delegates to `cached_init_X`
unless the subclass overrides `init_X` itself. -/
def init_X (cfg : DistConfig) (cache : Cache) (s : DistState) :
    Except Fault (DistState × Cache) :=
  match cfg.init_X_override with
  | some f => .ok (f s, cache)
  | none => cached_init_X cfg cache s

/-- `Distribution.__init__` (lines 20-55): records the constructor
parameters, leaves the jump flag unset, zeroes both counters, clears the
burn-in marker and immediately runs `init_X` — so initialization completes
(or raises) synchronously during construction. -/
def construct (cfg : DistConfig) (cache : Cache) (ndims nbatch rng : ℕ) :
    Except Fault (DistState × Cache) :=
  init_X cfg cache
    { ndims := ndims, nbatch := nbatch, mjhmc := none, E_count := 0,
      dEdX_count := 0, generation_instance := false, Xinit := [], rng := rng }

/-- `Distribution.reset` (lines 158-166): zeroes both counters, re-runs
`init_X` unless the instance is a burn-in driver, and returns the (mutated)
instance itself. -/
def reset (cfg : DistConfig) (cache : Cache) (s : DistState) :
    Except Fault (DistState × Cache) :=
  let s1 := { s with E_count := 0, dEdX_count := 0 }
  if s1.generation_instance then .ok (s1, cache)
  else init_X cfg cache s1

end Distribution

namespace LambdaDistribution

/-- `LambdaDistribution.__hash__` (distributions.py lines 245-247):
`hash((self.ndims, self.nbatch, self.name))` — the batch size is part of
the tuple. -/
def hashImpl (ndims nbatch : ℕ) (nm : String) : PyHash :=
  [.int ndims, .int nbatch, .str nm]

end LambdaDistribution

namespace TestGaussian

/-- `TestGaussian.E_val` (lines 352-354):
`np.sum(X**2, axis=0).reshape((1, -1)) / (2. * self.sigma ** 2)` — a
`[1, k]` row of per-particle energies. -/
def E_val (sigma : ℚ) (X : Mat) : Mat :=
  [(Mat.colsOf X).map (fun c => (c.map (fun x => x ^ 2)).sum / (2 * sigma ^ 2))]

/-- `TestGaussian.dEdX_val` (lines 356-358): `X / self.sigma ** 2`. -/
def dEdX_val (sigma : ℚ) (X : Mat) : Mat :=
  X.map (List.map (fun x => x / sigma ^ 2))

/-- `TestGaussian.__hash__` (lines 364-366): `hash((self.ndims, self.sigma))`. -/
def hashImpl (ndims : ℕ) (sigma : ℚ) : PyHash := [.int ndims, .rat sigma]

/-- `TestGaussian.gen_init_X` (lines 360-362):
`np.random.randn(self.ndims, self.nbatch)`. -/
def gen_init_X (s : DistState) : DistState :=
  { s with Xinit := randn s.rng s.ndims s.nbatch,
           rng := s.rng + s.ndims * s.nbatch }

/-- The `TestGaussian` subclass assembled as a `DistConfig`. -/
def cfg (sigma : ℚ) : DistConfig :=
  { dname := "TestGaussian",
    e_val := fun X => .ok (E_val sigma X),
    dEdX_val := fun X => .ok (dEdX_val sigma X),
    hashOf := fun s => .ok (hashImpl s.ndims sigma),
    gen_init_X := some gen_init_X,
    init_X_override := none }

end TestGaussian

namespace TFGaussian

/-- The singlet energy op of `TFGaussian` (tf_distributions.py lines
177-180): `tf.reduce_sum(x ** 2) / (2 * sigma ** 2)` for one particle. -/
def energySinglet (sigma : ℚ) (x : List ℚ) : ℚ :=
  (x.map (fun v => v ^ 2)).sum / (2 * sigma ^ 2)

/-- The singlet gradient op (`TensorflowDistribution.grad_op_singlet`,
lines 81-87): the dataflow engine's automatic differentiation of the
singlet energy, which for the quadratic energy is `x / sigma ** 2`. -/
def gradSinglet (sigma : ℚ) (x : List ℚ) : List ℚ :=
  x.map (fun v => v / sigma ^ 2)

/-- The batched energy op (`build_energy_op`, lines 90-107): `tf.map_fn`
of the singlet op over the transposed state, a `[k]` vector of energies. -/
def energyBatch (sigma : ℚ) (X : Mat) : List ℚ :=
  (Mat.colsOf X).map (energySinglet sigma)

/-- The batched gradient op (lines 103-107): `tf.map_fn` of the singlet
gradient over the transposed state, transposed back to `[ndims, k]`.  The
result is presented column-wise (the list of per-particle gradients). -/
def gradBatchCols (sigma : ℚ) (X : Mat) : List (List ℚ) :=
  (Mat.colsOf X).map (gradSinglet sigma)

end TFGaussian

namespace MultimodalGaussian

/-- `MultimodalGaussian.__init__` (distributions.py lines 311-315):
`sep_vec = np.array([separation]*nbatch + [0]*(ndims-1)*nbatch)
             .reshape(ndims, nbatch)` followed by `sep_vec[0] += separation`,
so the first row holds `2*separation` and every other row is zero. -/
def sep_vec (ndims nbatch : ℕ) (separation : ℚ) : Mat :=
  (List.range ndims).map
    (fun i => if i = 0 then List.replicate nbatch (separation + separation)
              else List.replicate nbatch 0)

/-- The attribute store of a `MultimodalGaussian` instance.  `__init__`
assigns `self.sep_vec` (the derived vector) but never an attribute named
`separation`; the unassigned Python attribute is modelled as an `Option`
left at `none`. -/
structure Attrs where
  ndims : ℕ
  nbatch : ℕ
  sep_vec : Mat
  separation : Option ℚ
deriving DecidableEq, Repr

/-- The attributes `MultimodalGaussian.__init__` (lines 310-316) leaves on
the instance: only the derived `sep_vec`, never `separation`. -/
def attrsOf (ndims nbatch : ℕ) (separation : ℚ) : Attrs :=
  { ndims := ndims, nbatch := nbatch,
    sep_vec := sep_vec ndims nbatch separation, separation := none }

/-- `MultimodalGaussian.__hash__` (lines 340-342):
`hash((self.ndims, self.separation))`.  Reading `self.separation` on an
instance that never assigned it raises `AttributeError`. -/
def hashImpl (a : Attrs) : Except Fault PyHash :=
  match a.separation with
  | none => .error .attributeError
  | some v => .ok [.int a.ndims, .rat v]

/-- `MultimodalGaussian.init_X` (lines 334-338): overrides the cached
initialization with two fresh `np.random.randn(ndims, nbatch)` draws,
`(r1 + sep_vec) + (r2 - sep_vec)` (the separation vectors cancel, as the
source comment notes). -/
def init_X (sv : Mat) (s : DistState) : DistState :=
  let r1 := randn s.rng s.ndims s.nbatch
  let r2 := randn (s.rng + s.ndims * s.nbatch) s.ndims s.nbatch
  { s with Xinit := Mat.add (Mat.add r1 sv) (Mat.sub r2 sv),
           rng := s.rng + 2 * (s.ndims * s.nbatch) }

/-- The `MultimodalGaussian` subclass assembled as a `DistConfig`.  Its
energy and gradient involve `exp`/`log` over the reals and are irrelevant
to every property below (the overridden `init_X` never evaluates them), so
they are abstract parameters here and universally quantified in the
theorems. -/
def cfg (ev dv : Mat → Except Fault Mat) (ndims nbatch : ℕ) (separation : ℚ) :
    DistConfig :=
  { dname := "MultimodalGaussian",
    e_val := ev,
    dEdX_val := dv,
    hashOf := fun _ => hashImpl (attrsOf ndims nbatch separation),
    gen_init_X := none,
    init_X_override := some (init_X (sep_vec ndims nbatch separation)) }

end MultimodalGaussian

/-- A concrete subclass that inherits every base-class default: energy,
gradient, initial-state generation and hash all raise
`NotImplementedError` (distributions.py lines 62-66, 73-77, 79-89,
149-156). -/
def bareSubclass (nm : String) : DistConfig :=
  { dname := nm,
    e_val := fun _ => .error .notImplemented,
    dEdX_val := fun _ => .error .notImplemented,
    hashOf := fun _ => .error .notImplemented,
    gen_init_X := none,
    init_X_override := none }

/-- A concrete subclass that implements only `__hash__` (as a constant
tuple) and leaves energy, gradient and initial-state generation at the
raising base-class defaults. -/
def hashOnlySubclass (nm : String) (h : PyHash) : DistConfig :=
  { dname := nm,
    e_val := fun _ => .error .notImplemented,
    dEdX_val := fun _ => .error .notImplemented,
    hashOf := fun _ => .ok h,
    gen_init_X := none,
    init_X_override := none }

/-- The all-zero `[n, k]` batch. -/
def zeroMat (n k : ℕ) : Mat := List.replicate n (List.replicate k 0)

/-- The `Xinit` attribute of a construction/reset outcome, `none` when the
call raised. -/
def xinitOf (r : Except Fault (DistState × Cache)) : Option Mat :=
  r.toOption.map (·.1.Xinit)

/-- Every initial-state override of the repository (plain `randn` draws,
`Xinit` assignments) leaves the two evaluation counters alone; this
predicate states that for a `DistConfig`. -/
def DistConfig.CountersPreserved (cfg : DistConfig) : Prop :=
  (∀ g, cfg.gen_init_X = some g →
    ∀ u, (g u).E_count = u.E_count ∧ (g u).dEdX_count = u.dEdX_count) ∧
  (∀ f, cfg.init_X_override = some f →
    ∀ u, (f u).E_count = u.E_count ∧ (f u).dEdX_count = u.dEdX_count)

/-- A concrete cache entry with distinct jump and control batches of shape
`[2, 3]`, used to instantiate the hypotheses of the theorems below. -/
def demoEntry : CacheEntry :=
  { mjhmc_endpt := [[1, 2, 3], [4, 5, 6]], emc_var := 0, true_var := 0,
    control_endpt := [[7, 8, 9], [10, 11, 12]] }

/-- A concrete hash value for the demo subclass. -/
def demoHash : PyHash := [.int 7]

/-- A demo subclass implementing only `__hash__`. -/
def demoCfg : DistConfig := hashOnlySubclass "Demo" demoHash

/-- A cache holding `demoEntry` under the demo subclass's key. -/
def demoCache : Cache := [⟨"Demo", demoHash, demoEntry⟩]

/-- A live demo instance: jump-sampled, two particles, nonzero counters. -/
def demoState : DistState :=
  { ndims := 2, nbatch := 2, mjhmc := some true, E_count := 3, dEdX_count := 4,
    generation_instance := false, Xinit := [], rng := 0 }

/-- A cache keyed for a subclass named "Inc". -/
def incCache : Cache := [⟨"Inc", demoHash, demoEntry⟩]

/-- A concrete `MultimodalGaussian` (2 dimensions, 2 particles,
separation 3); its never-evaluated energy and gradient are instantiated
with trivial evaluators. -/
def mmgDemoCfg : DistConfig :=
  MultimodalGaussian.cfg (fun _ => .ok []) (fun _ => .ok []) 2 2 3

/-- The cache entry used by the C4 counterexample: jump and control batches
differ. -/
def c4entry : CacheEntry :=
  { mjhmc_endpt := [[1, 2]], emc_var := 0, true_var := 0,
    control_endpt := [[5, 6]] }

/-- A 1-dimensional demo subclass whose cache holds `c4entry`. -/
def c4cfg : DistConfig := hashOnlySubclass "D" [.int 0]

/-- The cache for the C4 counterexample. -/
def c4cache : Cache := [⟨"D", [.int 0], c4entry⟩]

theorem Mat.cols_of_wellFormed {A : Mat} {n k : ℕ}
    (h : A.WellFormed n k) (hn : 0 < n) : A.cols = k := by
  obtain ⟨hlen, hrows⟩ := h
  cases A with
  | nil => simp at hlen; omega
  | cons r t => exact hrows r (List.mem_cons_self r t)

theorem Mat.takeCols_getD (B : Mat) (m i : ℕ) :
    (Mat.takeCols m B).getD i [] = (B.getD i []).take m := by
  induction B generalizing i with
  | nil => simp [Mat.takeCols]
  | cons r t ih =>
    cases i with
    | zero => simp [Mat.takeCols]
    | succ j => simpa [Mat.takeCols] using ih j

theorem List.take_getD (l : List ℚ) (m j : ℕ) (d : ℚ) (hj : j < m) :
    (l.take m).getD j d = l.getD j d := by
  induction l generalizing m j with
  | nil => simp
  | cons x t ih =>
    cases m with
    | zero => omega
    | succ m' =>
      cases j with
      | zero => simp
      | succ j' => simpa using ih m' j' (by omega)

theorem Distribution.retrieveFromEntry_fields (s : DistState) (e : CacheEntry) :
    (Distribution.retrieveFromEntry s e).E_count = s.E_count ∧
    (Distribution.retrieveFromEntry s e).dEdX_count = s.dEdX_count ∧
    (Distribution.retrieveFromEntry s e).ndims = s.ndims ∧
    (Distribution.retrieveFromEntry s e).nbatch = s.nbatch ∧
    (Distribution.retrieveFromEntry s e).mjhmc = s.mjhmc ∧
    (Distribution.retrieveFromEntry s e).generation_instance = s.generation_instance := by
  unfold Distribution.retrieveFromEntry
  split <;> exact ⟨rfl, rfl, rfl, rfl, rfl, rfl⟩

theorem Distribution.cached_init_X_hit (cfg : DistConfig) (cache : Cache)
    (s : DistState) (h : PyHash) (entry : CacheEntry)
    (hh : cfg.hashOf s = .ok h)
    (hlk : cache.lookup cfg.dname h = some entry) :
    Distribution.cached_init_X cfg cache s =
      .ok (Distribution.retrieveFromEntry s entry, cache) := by
  simp only [Distribution.cached_init_X, bind, Except.bind, hh, hlk]

theorem Distribution.init_X_ok_counts (cfg : DistConfig)
    (hcp : cfg.CountersPreserved) (cache : Cache) (u t : DistState) (c : Cache)
    (hok : Distribution.init_X cfg cache u = .ok (t, c)) :
    t.E_count = u.E_count ∧ t.dEdX_count = u.dEdX_count := by
  obtain ⟨hgen, hov⟩ := hcp
  unfold Distribution.init_X at hok
  cases hoc : cfg.init_X_override with
  | some f =>
    rw [hoc] at hok
    simp only [Except.ok.injEq, Prod.mk.injEq] at hok
    obtain ⟨ht, -⟩ := hok
    obtain ⟨h1, h2⟩ := hov f hoc u
    rw [ht] at h1 h2
    exact ⟨h1, h2⟩
  | none =>
    rw [hoc] at hok
    unfold Distribution.cached_init_X at hok
    simp only [bind, Except.bind] at hok
    split at hok
    · exact absurd hok (by simp)
    · rename_i h hh
      split at hok
      · rename_i entry hlk
        simp only [Except.ok.injEq, Prod.mk.injEq] at hok
        obtain ⟨ht, -⟩ := hok
        rw [← ht]
        obtain ⟨p1, p2, -⟩ := Distribution.retrieveFromEntry_fields u entry
        exact ⟨p1, p2⟩
      · split at hok
        · exact absurd hok (by simp)
        · rename_i h2 hh2
          split at hok
          · exact absurd hok (by simp)
          · rename_i h3 hh3
            split at hok
            · rename_i entry' hlk'
              simp only [Except.ok.injEq, Prod.mk.injEq] at hok
              obtain ⟨ht, -⟩ := hok
              rw [← ht]
              cases hg : cfg.gen_init_X with
              | some g =>
                simp only [hg]
                obtain ⟨p1, p2, -⟩ := Distribution.retrieveFromEntry_fields _ entry'
                refine ⟨p1.trans ?_, p2.trans ?_⟩
                · exact (hgen g hg _).1
                · exact (hgen g hg _).2
              | none =>
                simp only [hg]
                obtain ⟨p1, p2, -⟩ := Distribution.retrieveFromEntry_fields _ entry'
                exact ⟨p1, p2⟩
            · exact absurd hok (by simp)

theorem Distribution.reset_eq (cfg : DistConfig) (cache : Cache) (s : DistState) :
    Distribution.reset cfg cache s =
      if s.generation_instance then
        .ok ({ s with E_count := 0, dEdX_count := 0 }, cache)
      else Distribution.init_X cfg cache { s with E_count := 0, dEdX_count := 0 } := rfl

theorem Distribution.init_X_none (cfg : DistConfig) (cache : Cache) (s : DistState)
    (hov : cfg.init_X_override = none) :
    Distribution.init_X cfg cache s = Distribution.cached_init_X cfg cache s := by
  unfold Distribution.init_X
  rw [hov]

theorem Distribution.init_X_some (cfg : DistConfig) (cache : Cache) (s : DistState)
    (f : DistState → DistState) (hov : cfg.init_X_override = some f) :
    Distribution.init_X cfg cache s = .ok (f s, cache) := by
  unfold Distribution.init_X
  rw [hov]

/-- C1: `LambdaDistribution.__hash__` hashes `(ndims, nbatch, name)`, so two
instances differing only in batch size (5 vs 6 particles, same name and
dimensionality, hence the same energy landscape) hash differently — though
the base-class contract (distributions.py lines 79-89) demands that
`nbatch` not be part of any subclass's hash. -/
theorem lambda_hash_depends_on_nbatch :
    LambdaDistribution.hashImpl 2 5 "anon" ≠ LambdaDistribution.hashImpl 2 6 "anon" := by
  decide

/-- C3 counterexample: a concrete subclass that omits `__hash__` (keeping
the raising base-class default) faults already at construction time,
because `cached_init_X` computes `hash(self)` before consulting the cache
directory — refuting "constructing an instance succeeds" for every omitted
contract method. -/
theorem bare_subclass_faults_at_construction :
    Distribution.construct (bareSubclass "Incomplete") [] 2 100 0 =
      .error .notImplemented := rfl

/-- C3 amended: a subclass omitting energy/gradient (and initial-state
generation) but implementing `__hash__` constructs fine when its cache
entry exists, and the `NotImplementedError` surfaces only on the first
`E`/`dEdX` call; omitting `__hash__`, by contrast, faults at construction. -/
theorem unimplemented_methods_fault_on_first_use
    (nm : String) (h : PyHash) (cache : Cache) (entry : CacheEntry)
    (ndims nbatch rng : ℕ) (X Y : Mat)
    (hlk : cache.lookup nm h = some entry) :
    ∃ s, Distribution.construct (hashOnlySubclass nm h) cache ndims nbatch rng =
        .ok (s, cache) ∧
      (Distribution.E (hashOnlySubclass nm h) s X).2 = .error .notImplemented ∧
      (Distribution.dEdX (hashOnlySubclass nm h) s Y).2 = .error .notImplemented := by
  refine ⟨Distribution.retrieveFromEntry
    { ndims := ndims, nbatch := nbatch, mjhmc := none, E_count := 0,
      dEdX_count := 0, generation_instance := false, Xinit := [], rng := rng } entry,
    ?_, rfl, rfl⟩
  exact Distribution.cached_init_X_hit (hashOnlySubclass nm h) cache _ h entry rfl hlk

theorem unimplemented_methods_fault_on_first_use_witness :
    incCache.lookup "Inc" demoHash = some demoEntry ∧
    ∃ s, Distribution.construct (hashOnlySubclass "Inc" demoHash) incCache 2 2 0 =
        .ok (s, incCache) ∧
      (Distribution.E (hashOnlySubclass "Inc" demoHash) s (zeroMat 2 2)).2 =
        .error .notImplemented ∧
      (Distribution.dEdX (hashOnlySubclass "Inc" demoHash) s (zeroMat 2 2)).2 =
        .error .notImplemented :=
  ⟨by decide,
   unimplemented_methods_fault_on_first_use "Inc" demoHash incCache demoEntry 2 2 0
     (zeroMat 2 2) (zeroMat 2 2) (by decide)⟩

/-- C10: `Distribution.E` bumps `E_count` by the particle count before the
delegate `E_val` runs, so when the delegate raises, the returned state has
the counter already incremented — the failure is not atomic w.r.t. counter
state. -/
theorem energy_counter_incremented_before_fault
    (cfg : DistConfig) (s : DistState) (X : Mat) (f : Fault)
    (hf : cfg.e_val X = .error f) :
    Distribution.E cfg s X =
      ({ s with E_count := s.E_count + X.cols }, .error f) := by
  unfold Distribution.E
  rw [hf]

theorem energy_counter_incremented_before_fault_witness :
    (bareSubclass "B").e_val (zeroMat 2 3) = .error .notImplemented ∧
    Distribution.E (bareSubclass "B") demoState (zeroMat 2 3) =
      ({ demoState with E_count := demoState.E_count + (zeroMat 2 3).cols },
       .error .notImplemented) :=
  ⟨rfl, energy_counter_incremented_before_fault (bareSubclass "B") demoState
    (zeroMat 2 3) .notImplemented rfl⟩

/-- C9: every `MultimodalGaussian` constructs successfully (its overridden
`init_X` draws random particles and never needs the hash), but computing
its hash raises `AttributeError`, since `__init__` stores only the derived
`sep_vec` and `__hash__` reads the never-assigned `separation`. -/
theorem multimodal_hash_attribute_fault
    (ev dv : Mat → Except Fault Mat) (ndims nbatch rng : ℕ) (separation : ℚ)
    (cache : Cache) (hnd : 0 < ndims) :
    ∃ s, Distribution.construct (MultimodalGaussian.cfg ev dv ndims nbatch separation)
        cache ndims nbatch rng = .ok (s, cache) ∧
      (MultimodalGaussian.cfg ev dv ndims nbatch separation).hashOf s =
        .error .attributeError := by
  exact ⟨MultimodalGaussian.init_X
      (MultimodalGaussian.sep_vec ndims nbatch separation)
      { ndims := ndims, nbatch := nbatch, mjhmc := none, E_count := 0,
        dEdX_count := 0, generation_instance := false, Xinit := [], rng := rng },
    Distribution.init_X_some _ cache _ _ rfl, rfl⟩

theorem multimodal_hash_attribute_fault_witness :
    0 < 2 ∧
    ∃ s, Distribution.construct (mmgDemoCfg) [] 2 2 0 = .ok (s, []) ∧
      mmgDemoCfg.hashOf s = .error .attributeError :=
  ⟨by decide,
   multimodal_hash_attribute_fault (fun _ => .ok []) (fun _ => .ok []) 2 2 0 3 []
     (by decide)⟩

/-- C4 counterexample: a freshly constructed distribution has its jump flag
unset (`mjhmc = None`); on a cache hit its initial state is exactly the
cached non-jump (`control`) regime batch — not "a completely separate
arbitrary-but-fixed fallback initialization (neither cached regime batch)"
as claimed.  The two regime batches of the entry differ, so this is
genuinely the non-jump batch. -/
theorem unset_flag_selects_control_batch :
    xinitOf (Distribution.construct c4cfg c4cache 1 2 0) =
      some c4entry.control_endpt ∧
    c4entry.mjhmc_endpt ≠ c4entry.control_endpt := by
  constructor
  · rfl
  · decide

/-- C4 amended: on a cache hit, the jump-regime batch is selected only when
`mjhmc` is literally `True`; both `False` and the unset `None` select the
non-jump (control) batch, because the source tests the flag with Python
truthiness (`if self.mjhmc:`). -/
theorem regime_selection (cfg : DistConfig) (cache : Cache) (s : DistState)
    (h : PyHash) (entry : CacheEntry)
    (hh : cfg.hashOf s = .ok h) (hlk : cache.lookup cfg.dname h = some entry) :
    (s.mjhmc = some true →
      Distribution.cached_init_X cfg cache s =
        .ok ({ s with Xinit := entry.mjhmc_endpt.takeCols s.nbatch }, cache)) ∧
    (s.mjhmc = some false ∨ s.mjhmc = none →
      Distribution.cached_init_X cfg cache s =
        .ok ({ s with Xinit := entry.control_endpt.takeCols s.nbatch }, cache)) := by
  rw [Distribution.cached_init_X_hit cfg cache s h entry hh hlk]
  constructor
  · intro hm
    unfold Distribution.retrieveFromEntry
    rw [hm]
    rfl
  · intro hm
    unfold Distribution.retrieveFromEntry
    rcases hm with hm | hm <;> rw [hm] <;> rfl

theorem regime_selection_witness :
    demoCfg.hashOf demoState = .ok demoHash ∧
    demoCache.lookup demoCfg.dname demoHash = some demoEntry ∧
    demoState.mjhmc = some true ∧
    Distribution.cached_init_X demoCfg demoCache demoState =
      .ok ({ demoState with
             Xinit := demoEntry.mjhmc_endpt.takeCols demoState.nbatch }, demoCache) :=
  ⟨rfl, by decide,
   rfl, (regime_selection demoCfg demoCache demoState demoHash demoEntry rfl
          (by decide)).1 rfl⟩

/-- C8: for a 2-dimensional, 100-particle, unit-variance Gaussian evaluated
at the all-zero batch, the direct-array adapter (`TestGaussian.E_val`,
`TestGaussian.dEdX_val`) returns energy 0 for every particle and gradient 0
for every particle, and so do the modelled dataflow-graph singlet/batched
ops of `TFGaussian`. -/
theorem List.getD_replicate_self (a : ℚ) (n j : ℕ) :
    (List.replicate n a).getD j a = a := by
  induction n generalizing j with
  | zero => simp
  | succ n ih =>
    cases j with
    | zero => simp
    | succ j => simp [List.replicate_succ, ih j]

theorem zeroMat_colsOf :
    Mat.colsOf (zeroMat 2 100) = List.replicate 100 [0, 0] := by
  have h1 : Mat.cols (zeroMat 2 100) = 100 := by
    rw [show zeroMat 2 100 =
      [List.replicate 100 (0 : ℚ), List.replicate 100 0] from rfl]
    simp [Mat.cols]
  unfold Mat.colsOf
  rw [h1, show zeroMat 2 100 =
    [List.replicate 100 (0 : ℚ), List.replicate 100 0] from rfl]
  refine List.eq_replicate_iff.mpr ⟨by simp, ?_⟩
  intro b hb
  simp only [List.mem_map, List.mem_range] at hb
  obtain ⟨j, -, rfl⟩ := hb
  simp only [List.map_cons, List.map_nil, List.getD_replicate_self]

theorem zero_batch_zero_energy_and_gradient :
    TestGaussian.E_val 1 (zeroMat 2 100) = [List.replicate 100 0] ∧
    TestGaussian.dEdX_val 1 (zeroMat 2 100) = zeroMat 2 100 ∧
    TFGaussian.energyBatch 1 (zeroMat 2 100) = List.replicate 100 0 ∧
    TFGaussian.gradBatchCols 1 (zeroMat 2 100) =
      List.replicate 100 (List.replicate 2 0) := by
  refine ⟨?_, ?_, ?_, ?_⟩
  · unfold TestGaussian.E_val
    rw [zeroMat_colsOf, List.map_replicate]
    norm_num
  · unfold TestGaussian.dEdX_val zeroMat
    rw [List.map_replicate, List.map_replicate]
    norm_num
  · unfold TFGaussian.energyBatch
    rw [zeroMat_colsOf, List.map_replicate]
    unfold TFGaussian.energySinglet
    norm_num
  · unfold TFGaussian.gradBatchCols
    rw [zeroMat_colsOf, List.map_replicate]
    unfold TFGaussian.gradSinglet
    norm_num
    rfl

theorem Mat.takeCols_wellFormed {A : Mat} {n M : ℕ} (m : ℕ)
    (hwf : A.WellFormed n M) (hm : m ≤ M) :
    (Mat.takeCols m A).WellFormed n m := by
  obtain ⟨hlen, hrows⟩ := hwf
  constructor
  · simpa [Mat.takeCols] using hlen
  · intro r hr
    simp only [Mat.takeCols, List.mem_map] at hr
    obtain ⟨r₀, hr₀, rfl⟩ := hr
    rw [List.length_take, hrows r₀ hr₀]
    omega

/-- C5: on a cache hit for an entry whose selected regime batch holds
`M ≥ nbatch` particles, the loaded initial state is exactly the first
`nbatch` columns of the stored batch: right shape, and entrywise equal to
the stored batch on those columns. -/
theorem cache_slice_takes_first_columns (cfg : DistConfig) (cache : Cache)
    (s : DistState) (h : PyHash) (entry : CacheEntry) (M : ℕ)
    (hh : cfg.hashOf s = .ok h) (hlk : cache.lookup cfg.dname h = some entry)
    (hwf : (if truthy s.mjhmc then entry.mjhmc_endpt
            else entry.control_endpt).WellFormed s.ndims M)
    (hm : s.nbatch ≤ M) :
    ∃ t, Distribution.cached_init_X cfg cache s = .ok (t, cache) ∧
      t.Xinit.WellFormed s.ndims s.nbatch ∧
      ∀ i j, i < s.ndims → j < s.nbatch →
        t.Xinit.entry i j =
          (if truthy s.mjhmc then entry.mjhmc_endpt
           else entry.control_endpt).entry i j := by
  refine ⟨_, Distribution.cached_init_X_hit cfg cache s h entry hh hlk, ?_, ?_⟩
  all_goals
    have hx : (Distribution.retrieveFromEntry s entry).Xinit =
        (if truthy s.mjhmc then entry.mjhmc_endpt
         else entry.control_endpt).takeCols s.nbatch := by
      unfold Distribution.retrieveFromEntry
      cases truthy s.mjhmc <;> simp
  · rw [hx]
    exact Mat.takeCols_wellFormed s.nbatch hwf hm
  · intro i j hi hj
    rw [hx]
    unfold Mat.entry
    rw [Mat.takeCols_getD]
    exact List.take_getD _ s.nbatch j 0 hj

theorem cache_slice_takes_first_columns_witness :
    demoCfg.hashOf demoState = .ok demoHash ∧
    demoCache.lookup demoCfg.dname demoHash = some demoEntry ∧
    (if truthy demoState.mjhmc then demoEntry.mjhmc_endpt
     else demoEntry.control_endpt).WellFormed demoState.ndims 3 ∧
    demoState.nbatch ≤ 3 ∧
    (∃ t, Distribution.cached_init_X demoCfg demoCache demoState =
        .ok (t, demoCache) ∧
      t.Xinit.WellFormed demoState.ndims demoState.nbatch ∧
      ∀ i j, i < demoState.ndims → j < demoState.nbatch →
        t.Xinit.entry i j =
          (if truthy demoState.mjhmc then demoEntry.mjhmc_endpt
           else demoEntry.control_endpt).entry i j) :=
  ⟨rfl, by decide, by decide, by decide,
   cache_slice_takes_first_columns demoCfg demoCache demoState demoHash demoEntry 3
     rfl (by decide) (by decide) (by decide)⟩

/-- C6: `reset()` zeroes both counters and returns the mutated instance
(modelled as the returned state); when the instance is a burn-in driver
(`generation_instance`) its particle state and every other attribute are
left untouched, and otherwise fair-initialization retrieval is re-run,
loading `Xinit` from the cache entry. -/
theorem reset_effects (cfg : DistConfig) (cache : Cache) (s : DistState)
    (h : PyHash) (entry : CacheEntry)
    (hov : cfg.init_X_override = none)
    (hh : cfg.hashOf { s with E_count := 0, dEdX_count := 0 } = .ok h)
    (hlk : cache.lookup cfg.dname h = some entry) :
    (s.generation_instance = true →
      Distribution.reset cfg cache s =
        .ok ({ s with E_count := 0, dEdX_count := 0 }, cache)) ∧
    (s.generation_instance = false →
      Distribution.reset cfg cache s =
        .ok (Distribution.retrieveFromEntry
              { s with E_count := 0, dEdX_count := 0 } entry, cache)) := by
  rw [Distribution.reset_eq]
  constructor
  · intro hgen
    rw [hgen]
    rfl
  · intro hgen
    rw [hgen] at hh ⊢
    simp only [Bool.false_eq_true, if_false]
    rw [Distribution.init_X_none cfg cache _ hov]
    exact Distribution.cached_init_X_hit cfg cache _ h entry hh hlk

theorem reset_effects_witness :
    demoCfg.init_X_override = none ∧
    demoCfg.hashOf { demoState with E_count := 0, dEdX_count := 0 } = .ok demoHash ∧
    demoCache.lookup demoCfg.dname demoHash = some demoEntry ∧
    demoState.generation_instance = false ∧
    Distribution.reset demoCfg demoCache demoState =
      .ok (Distribution.retrieveFromEntry
            { demoState with E_count := 0, dEdX_count := 0 } demoEntry, demoCache) :=
  ⟨rfl, rfl, by decide, rfl,
   (reset_effects demoCfg demoCache demoState demoHash demoEntry rfl rfl
      (by decide)).2 rfl⟩

/-- C2: `E(X)` adds exactly `X`'s particle count to the energy counter
(leaving the gradient counter alone), `dEdX(Y)` adds exactly `Y`'s particle
count to the gradient counter (leaving the energy counter alone), and any
successful subsequent `reset()` returns both counters to zero.  The
`CountersPreserved` hypothesis records that the distribution's initial-state
overrides do not touch the counters, true of every subclass in the
repository. -/
theorem counters_track_particle_counts (cfg : DistConfig) (cache : Cache)
    (s : DistState) (X Y : Mat) (k l : ℕ)
    (hcp : cfg.CountersPreserved) (hn : 0 < s.ndims)
    (hX : X.WellFormed s.ndims k) (hk : k ≤ s.nbatch)
    (hY : Y.WellFormed s.ndims l) (hl : l ≤ s.nbatch) :
    (Distribution.E cfg s X).1.E_count = s.E_count + k ∧
    (Distribution.E cfg s X).1.dEdX_count = s.dEdX_count ∧
    (Distribution.dEdX cfg (Distribution.E cfg s X).1 Y).1.dEdX_count =
      s.dEdX_count + l ∧
    (Distribution.dEdX cfg (Distribution.E cfg s X).1 Y).1.E_count =
      s.E_count + k ∧
    ∀ t c, Distribution.reset cfg cache
        (Distribution.dEdX cfg (Distribution.E cfg s X).1 Y).1 = .ok (t, c) →
      t.E_count = 0 ∧ t.dEdX_count = 0 := by
  have hkc : X.cols = k := Mat.cols_of_wellFormed hX hn
  have hlc : Y.cols = l := Mat.cols_of_wellFormed hY hn
  refine ⟨?_, ?_, ?_, ?_, ?_⟩
  · show s.E_count + X.cols = s.E_count + k
    rw [hkc]
  · rfl
  · show s.dEdX_count + Y.cols = s.dEdX_count + l
    rw [hlc]
  · show s.E_count + X.cols = s.E_count + k
    rw [hkc]
  intro t c hok
  rw [Distribution.reset_eq] at hok
  split at hok
  · simp only [Except.ok.injEq, Prod.mk.injEq] at hok
    obtain ⟨ht, -⟩ := hok
    rw [← ht]
    exact ⟨rfl, rfl⟩
  · obtain ⟨e1, e2⟩ := Distribution.init_X_ok_counts cfg hcp cache _ t c hok
    exact ⟨e1, e2⟩

theorem counters_track_particle_counts_witness :
    demoCfg.CountersPreserved ∧ 0 < demoState.ndims ∧
    (zeroMat 2 2).WellFormed demoState.ndims 2 ∧ 2 ≤ demoState.nbatch ∧
    ((Distribution.E demoCfg demoState (zeroMat 2 2)).1.E_count =
      demoState.E_count + 2 ∧
    (Distribution.E demoCfg demoState (zeroMat 2 2)).1.dEdX_count =
      demoState.dEdX_count ∧
    (Distribution.dEdX demoCfg (Distribution.E demoCfg demoState (zeroMat 2 2)).1
        (zeroMat 2 2)).1.dEdX_count = demoState.dEdX_count + 2 ∧
    (Distribution.dEdX demoCfg (Distribution.E demoCfg demoState (zeroMat 2 2)).1
        (zeroMat 2 2)).1.E_count = demoState.E_count + 2 ∧
    ∀ t c, Distribution.reset demoCfg demoCache
        (Distribution.dEdX demoCfg (Distribution.E demoCfg demoState (zeroMat 2 2)).1
          (zeroMat 2 2)).1 = .ok (t, c) →
      t.E_count = 0 ∧ t.dEdX_count = 0) :=
  by
  refine ⟨⟨fun g hg => Option.noConfusion hg, fun f hf => Option.noConfusion hf⟩, by decide, by decide,
    by decide, ?_⟩
  exact counters_track_particle_counts demoCfg demoCache demoState (zeroMat 2 2)
    (zeroMat 2 2) 2 2 ⟨fun g hg => Option.noConfusion hg, fun f hf => Option.noConfusion hf⟩
    (by decide) (by decide) (by decide) (by decide) (by decide)

/-- C7 counterexample: for a concrete `MultimodalGaussian` (2 dimensions, 2
particles, separation 3), two consecutive `reset()` calls with no
intervening evaluation leave different `Xinit` batches, because the
overridden `init_X` consumes fresh random draws on every call — refuting
reset idempotence "for every Distribution". -/
theorem multimodal_reset_not_idempotent :
    xinitOf (Except.bind (Distribution.construct mmgDemoCfg [] 2 2 0)
      (fun p => Distribution.reset mmgDemoCfg p.2 p.1)) ≠
    xinitOf (Except.bind (Except.bind (Distribution.construct mmgDemoCfg [] 2 2 0)
      (fun p => Distribution.reset mmgDemoCfg p.2 p.1))
      (fun p => Distribution.reset mmgDemoCfg p.2 p.1)) := by
  have h1 : xinitOf (Except.bind (Distribution.construct mmgDemoCfg [] 2 2 0)
      (fun p => Distribution.reset mmgDemoCfg p.2 p.1)) =
      some [[noise 8 + (3 + 3) + (noise 12 - (3 + 3)),
             noise 9 + (3 + 3) + (noise 13 - (3 + 3))],
            [noise 10 + 0 + (noise 14 - 0),
             noise 11 + 0 + (noise 15 - 0)]] := rfl
  have h2 : xinitOf (Except.bind (Except.bind (Distribution.construct mmgDemoCfg [] 2 2 0)
      (fun p => Distribution.reset mmgDemoCfg p.2 p.1))
      (fun p => Distribution.reset mmgDemoCfg p.2 p.1)) =
      some [[noise 16 + (3 + 3) + (noise 20 - (3 + 3)),
             noise 17 + (3 + 3) + (noise 21 - (3 + 3))],
            [noise 18 + 0 + (noise 22 - 0),
             noise 19 + 0 + (noise 23 - 0)]] := rfl
  rw [h1, h2]
  intro hcontra
  have h3 := congrArg (fun o => Mat.entry (Option.getD o []) 0 0) hcontra
  simp only [Option.getD_some] at h3
  norm_num [Mat.entry, noise] at h3

/-- C7 amended: reset idempotence does hold for every distribution that
re-seeds from the initialization cache (no `init_X` override, a hash that
reads only constructor parameters, and a present cache entry): the first
`reset()` loads the cached slice and a second `reset()` reproduces exactly
the same state.  It fails only for `MultimodalGaussian`, whose overridden
`init_X` redraws random particles on each call. -/
theorem reset_idempotent_for_cached_init (cfg : DistConfig) (cache : Cache)
    (s : DistState) (h : PyHash) (entry : CacheEntry)
    (hov : cfg.init_X_override = none)
    (hh : ∀ u, cfg.hashOf u = .ok h)
    (hlk : cache.lookup cfg.dname h = some entry) :
    ∃ t, Distribution.reset cfg cache s = .ok (t, cache) ∧
      Distribution.reset cfg cache t = .ok (t, cache) := by
  cases hgen : s.generation_instance with
  | true =>
    refine ⟨{ s with E_count := 0, dEdX_count := 0 }, ?_, ?_⟩ <;>
      rw [Distribution.reset_eq] <;> rw [hgen] <;> rfl
  | false =>
    refine ⟨Distribution.retrieveFromEntry
      { s with E_count := 0, dEdX_count := 0 } entry, ?_, ?_⟩
    · rw [Distribution.reset_eq, hgen]
      simp only [Bool.false_eq_true, if_false]
      rw [Distribution.init_X_none cfg cache _ hov]
      exact Distribution.cached_init_X_hit cfg cache _ h entry (hh _) hlk
    · rw [Distribution.reset_eq]
      unfold Distribution.retrieveFromEntry
      cases htm : truthy s.mjhmc <;>
        simp only [htm, Bool.false_eq_true, if_false, if_true] <;>
        rw [hgen] <;>
        simp only [Bool.false_eq_true, if_false] <;>
        rw [Distribution.init_X_none cfg cache _ hov] <;>
        rw [Distribution.cached_init_X_hit cfg cache _ h entry (hh _) hlk] <;>
        unfold Distribution.retrieveFromEntry <;>
        simp only [htm, Bool.false_eq_true, if_false, if_true]

theorem reset_idempotent_for_cached_init_witness :
    demoCfg.init_X_override = none ∧
    (∀ u, demoCfg.hashOf u = .ok demoHash) ∧
    demoCache.lookup demoCfg.dname demoHash = some demoEntry ∧
    ∃ t, Distribution.reset demoCfg demoCache demoState = .ok (t, demoCache) ∧
      Distribution.reset demoCfg demoCache t = .ok (t, demoCache) :=
  ⟨rfl, fun u => rfl, by decide,
   reset_idempotent_for_cached_init demoCfg demoCache demoState demoHash demoEntry
     rfl (fun u => rfl) (by decide)⟩
